import Mathlib

/-!
# Verification of the COAsT spatial-indexing and statistics core

Shallow embedding of the algorithmic core of the COAsT oceanographic
toolkit (`coast/general_utils.py`, `coast/stats_util.py`), together with
proofs settling the behavioural claims about it.

Conventions of the embedding:
* numpy 1-D float arrays are `List ℝ`; arrays whose elements may be the
  IEEE quiet NaN are `List (Option ℝ)` with `none` standing for NaN
  (NaN propagates through arithmetic, which the `Option` operations mirror);
* functions that are generic in the element dtype (pure data movement,
  `remove_indices_by_mask` / `reinstate_indices_by_mask`) are polymorphic;
* a Python early `return` without value / a raised `ValueError` is `none`
  of an `Option` result;
* `sklearn.neighbors.BallTree` is an external library; its
  `query_radius(centre, r)` call is embedded by its documented semantics:
  the set of indices of tree points whose haversine metric distance to the
  centre is at most `r` (points whose coordinates are NaN never satisfy an
  IEEE comparison, hence are never returned).
-/

namespace COAsT

/-! ## MaskProjector: `remove_indices_by_mask` / `reinstate_indices_by_mask`
(`general_utils.py` lines 130-154).

Arrays are modelled already flattened (the Python functions first flatten
both `A` and `mask` in row-major order, so all index bookkeeping happens
in flat space; the final `reshape` is inverse to the flatten and does not
move data). -/

/-- `A[~mask]`: the subsequence of `A` at positions where `mask` is False,
in order.  Embeds `remove_indices_by_mask` (flatten, then boolean-mask
selection). -/
def remove_indices_by_mask {α : Type} (A : List α) (mask : List Bool) : List α :=
  (A.zip mask).filterMap (fun p => if p.2 then none else some p.1)

/-- Number of `false` entries of a mask (`count(mask == False)`). -/
def falseCount (mask : List Bool) : ℕ :=
  mask.countP (fun b => !b)

/-- The scatter `A[~mask] = vals; A[mask] = fill` when `vals` has exactly
one value per False position of `mask`; `none` when the lengths
disagree. -/
def scatterByMask {α : Type} (vals : List α) (mask : List Bool) (fill : α) :
    Option (List α) :=
  match mask, vals with
  | [], [] => some []
  | [], _ :: _ => none
  | true :: ms, vs => (scatterByMask vs ms fill).map (fill :: ·)
  | false :: _, [] => none
  | false :: ms, v :: vs => (scatterByMask vs ms fill).map (v :: ·)

/-- Embeds `reinstate_indices_by_mask`: allocate a buffer shaped like
`mask`, assign `A[~mask] = array_removed`, `A[mask] = fill_value`.
numpy's fancy-index assignment broadcasts a length-1 right-hand side over
every selected position and raises `ValueError` on any other length
mismatch, which the two fallback branches mirror. -/
def reinstate_indices_by_mask {α : Type} (array_removed : List α)
    (mask : List Bool) (fill_value : α) : Option (List α) :=
  if array_removed.length = falseCount mask then
    scatterByMask array_removed mask fill_value
  else if h : array_removed.length = 1 then
    scatterByMask
      (List.replicate (falseCount mask) (array_removed.head
        (List.length_pos.mp (by omega))))
      mask fill_value
  else none

lemma remove_cons {α : Type} (a : α) (A : List α) (m : Bool) (ms : List Bool) :
    remove_indices_by_mask (a :: A) (m :: ms)
      = (if m then [] else [a]) ++ remove_indices_by_mask A ms := by
  cases m <;> simp [remove_indices_by_mask, List.filterMap_cons]

lemma remove_length : ∀ (mask : List Bool) {α : Type} (A : List α),
    A.length = mask.length →
    (remove_indices_by_mask A mask).length = falseCount mask
  | [], _, [], _ => by simp [remove_indices_by_mask, falseCount]
  | m :: ms, _, a :: A, h => by
    have h' : A.length = ms.length := by simpa using h
    cases m <;>
      simp [remove_cons, falseCount, List.countP_cons,
        remove_length ms A h', falseCount]

lemma scatter_remove_eq {α : Type} (fill : α) :
    ∀ (mask : List Bool) (A : List α), A.length = mask.length →
    scatterByMask (remove_indices_by_mask A mask) mask fill
      = some (List.zipWith (fun m a => if m then fill else a) mask A)
  | [], [], _ => by simp [remove_indices_by_mask, scatterByMask]
  | [], _ :: _, h => by simp at h
  | _ :: _, [], h => by simp at h
  | true :: ms, a :: A, h => by
    have h' : A.length = ms.length := by simpa using h
    simp [remove_cons, scatterByMask, scatter_remove_eq fill ms A h']
  | false :: ms, a :: A, h => by
    have h' : A.length = ms.length := by simpa using h
    have hrm : remove_indices_by_mask (a :: A) (false :: ms)
        = a :: remove_indices_by_mask A ms := by simp [remove_cons]
    rw [hrm]
    show (scatterByMask (remove_indices_by_mask A ms) ms fill).map (a :: ·) = _
    rw [scatter_remove_eq fill ms A h']
    simp

/-- C2.  Mask round-trip: reinstating a removed field reproduces the field
at every unmasked position and the fill value at every masked position. -/
theorem mask_round_trip {α : Type} (A : List α) (mask : List Bool) (fill : α)
    (h : A.length = mask.length) :
    ∃ r, reinstate_indices_by_mask (remove_indices_by_mask A mask) mask fill
          = some r
      ∧ r.length = mask.length
      ∧ ∀ i, i < mask.length →
          r[i]? = some (if mask.getD i false then fill else A.getD i fill) := by
  refine ⟨List.zipWith (fun m a => if m then fill else a) mask A, ?_, ?_, ?_⟩
  · unfold reinstate_indices_by_mask
    rw [if_pos (remove_length mask A h)]
    exact scatter_remove_eq fill mask A h
  · simp [List.length_zipWith, h]
  · intro i hi
    have hiA : i < A.length := by omega
    rw [List.getElem?_zipWith]
    rw [List.getElem?_eq_getElem hi, List.getElem?_eq_getElem hiA]
    simp [List.getD, List.getElem?_eq_getElem hi, List.getElem?_eq_getElem hiA]

/-- C2 witness: a concrete round trip through a 3-element field. -/
theorem mask_round_trip_witness :
    ([10, 20, 30] : List ℕ).length = [true, false, true].length
    ∧ ∃ r,
        reinstate_indices_by_mask
            (remove_indices_by_mask ([10, 20, 30] : List ℕ) [true, false, true])
            [true, false, true] 9 = some r
        ∧ r.length = [true, false, true].length
        ∧ ∀ i, i < [true, false, true].length →
            r[i]? = some (if [true, false, true].getD i false then 9
              else ([10, 20, 30] : List ℕ).getD i 9) :=
  ⟨by decide, mask_round_trip [10, 20, 30] [true, false, true] 9 (by decide)⟩

/-- C6 counterexample: numpy's fancy-index assignment broadcasts a
length-1 values array over every False position of the mask, so
`reinstate_indices_by_mask` given one value and a two-False mask succeeds
and pads, instead of failing with a size-mismatch error. -/
theorem expand_size_cex :
    ([(5 : ℕ)].length ≠ falseCount [false, false])
    ∧ reinstate_indices_by_mask [(5 : ℕ)] [false, false] 0 = some [5, 5] := by
  decide

/-- C6 amended.  Expand size precondition: when the values length differs
from the mask's False-count and is not 1 (the numpy broadcast case),
`reinstate_indices_by_mask` fails and produces no array. -/
theorem expand_size_precondition {α : Type} (vals : List α) (mask : List Bool)
    (fill : α) (h1 : vals.length ≠ falseCount mask) (h2 : vals.length ≠ 1) :
    reinstate_indices_by_mask vals mask fill = none := by
  unfold reinstate_indices_by_mask
  rw [if_neg h1, dif_neg h2]

/-- C6 witness: three values against a single-False mask fail. -/
theorem expand_size_precondition_witness :
    (([1, 2, 3] : List ℕ).length ≠ falseCount [false])
    ∧ (([1, 2, 3] : List ℕ).length ≠ 1)
    ∧ reinstate_indices_by_mask ([1, 2, 3] : List ℕ) [false] 0 = none :=
  ⟨by decide, by decide,
    expand_size_precondition [1, 2, 3] [false] 0 (by decide) (by decide)⟩

/-! ## GeodesicDistance and SpatialIndex
(`general_utils.py` lines 12-73 and 101-128). -/

/-- Degrees to radians, as `np.radians` / `xr.ufuncs.deg2rad` compute it. -/
noncomputable def deg2rad (d : ℝ) : ℝ := d * (Real.pi / 180)

/-- Embeds `calculate_haversine_distance` (lines 101-128): convert the four
coordinates to radians, apply the haversine formula, scale by the Earth
radius constant 6371.007176 used by this function. -/
noncomputable def calculate_haversine_distance (lon1 lat1 lon2 lat2 : ℝ) : ℝ :=
  let rlon1 := deg2rad lon1
  let rlat1 := deg2rad lat1
  let rlon2 := deg2rad lon2
  let rlat2 := deg2rad lat2
  let dlat := (rlat2 - rlat1) / 2
  let dlon := (rlon2 - rlon1) / 2
  let d := Real.sin dlat ^ 2 + Real.cos rlat1 * Real.cos rlat2 * Real.sin dlon ^ 2
  2 * 6371.007176 * Real.arcsin (Real.sqrt d)

/-- The haversine metric of `sklearn.neighbors.BallTree` on
radian-valued `(lat, lon)` pairs: the central angle on the unit sphere. -/
noncomputable def ballTreeHaversine (lat1 lon1 lat2 lon2 : ℝ) : ℝ :=
  2 * Real.arcsin (Real.sqrt (Real.sin ((lat2 - lat1) / 2) ^ 2
    + Real.cos lat1 * Real.cos lat2 * Real.sin ((lon2 - lon1) / 2) ^ 2))

/-- Embeds `subset_indices_by_distance` (lines 12-61) for one centre and a
flat (1-D) grid: the radius is converted with `r_rad = radius / 6371`;
masked cells get NaN coordinates before the flattened, radian-converted
point cloud is handed to `BallTree`, whose `query_radius` is embedded by
its documented semantics (all indices at haversine metric distance at most
`r_rad`; NaN coordinates never satisfy the comparison and are never
returned).  An absent mask is the all-False (e.g. empty) mask. -/
noncomputable def subset_indices_by_distance (longitude latitude : List ℝ)
    (mask : List Bool) (centre_lon centre_lat radius : ℝ) : Set ℕ :=
  { i | i < longitude.length
    ∧ mask.getD i false = false
    ∧ ballTreeHaversine (deg2rad (latitude.getD i 0)) (deg2rad (longitude.getD i 0))
        (deg2rad centre_lat) (deg2rad centre_lon) ≤ radius / 6371 }

lemma sin_half_sub_sq (x y : ℝ) :
    Real.sin ((x - y) / 2) ^ 2 = Real.sin ((y - x) / 2) ^ 2 := by
  rw [show (x - y) / 2 = -((y - x) / 2) by ring, Real.sin_neg]
  ring

lemma haversine_arg_symm (a1 b1 a2 b2 : ℝ) :
    Real.sin ((a2 - a1) / 2) ^ 2 + Real.cos a1 * Real.cos a2 * Real.sin ((b2 - b1) / 2) ^ 2
      = Real.sin ((a1 - a2) / 2) ^ 2 + Real.cos a2 * Real.cos a1 * Real.sin ((b1 - b2) / 2) ^ 2 := by
  rw [sin_half_sub_sq a2 a1, sin_half_sub_sq b2 b1]
  ring

/-- C9.  Haversine symmetry and self-distance: the distance is symmetric in
its two points, and the distance from any point to itself is zero. -/
theorem haversine_symm_self (lon1 lat1 lon2 lat2 : ℝ) :
    calculate_haversine_distance lon1 lat1 lon2 lat2
      = calculate_haversine_distance lon2 lat2 lon1 lat1
    ∧ calculate_haversine_distance lon1 lat1 lon1 lat1 = 0 := by
  constructor
  · simp only [calculate_haversine_distance]
    rw [haversine_arg_symm (deg2rad lat1) (deg2rad lon1) (deg2rad lat2) (deg2rad lon2)]
  · simp [calculate_haversine_distance]

lemma haversine_eq_theta (lon1 lat1 lon2 lat2 : ℝ) :
    calculate_haversine_distance lon1 lat1 lon2 lat2
      = 6371.007176 * ballTreeHaversine (deg2rad lat1) (deg2rad lon1)
          (deg2rad lat2) (deg2rad lon2) := by
  simp only [calculate_haversine_distance, ballTreeHaversine]
  ring

lemma ballTreeHaversine_nonneg (lat1 lon1 lat2 lon2 : ℝ) :
    0 ≤ ballTreeHaversine lat1 lon1 lat2 lon2 := by
  unfold ballTreeHaversine
  have h := Real.arcsin_nonneg.mpr (Real.sqrt_nonneg
    (Real.sin ((lat2 - lat1) / 2) ^ 2
      + Real.cos lat1 * Real.cos lat2 * Real.sin ((lon2 - lon1) / 2) ^ 2))
  linarith

lemma theta_antipodal :
    ballTreeHaversine (deg2rad 0) (deg2rad 180) (deg2rad 0) (deg2rad 0)
      = Real.pi := by
  have h180 : deg2rad 180 = Real.pi := by
    unfold deg2rad; ring
  have h0 : deg2rad 0 = 0 := by simp [deg2rad]
  rw [h180, h0]
  unfold ballTreeHaversine
  rw [show ((0 : ℝ) - Real.pi) / 2 = -(Real.pi / 2) by ring]
  simp [Real.sin_pi_div_two, Real.arcsin_one]
  ring

/-- C1 counterexample: with the single grid point (lon 180°, lat 0°),
centre (0°, 0°) and radius R = 6371·π km (> 0), the query returns index 0,
yet the point's haversine distance to the centre is
6371.007176·π km > R — the two Earth-radius constants disagree, so a
returned point can lie strictly beyond R. -/
theorem radius_query_soundness_cex :
    0 < 6371 * Real.pi
    ∧ 0 ∈ subset_indices_by_distance [180] [0] [] 0 0 (6371 * Real.pi)
    ∧ 6371 * Real.pi < calculate_haversine_distance 180 0 0 0 := by
  refine ⟨by positivity, ⟨by simp, by simp, ?_⟩, ?_⟩
  · have e1 : ([0] : List ℝ).getD 0 0 = 0 := rfl
    have e2 : ([180] : List ℝ).getD 0 0 = 180 := rfl
    rw [e1, e2, theta_antipodal]
    rw [show (6371 : ℝ) * Real.pi / 6371 = Real.pi by ring]
  · rw [haversine_eq_theta, theta_antipodal]
    have := Real.pi_pos
    nlinarith

/-- C1 amended.  Radius-query soundness up to the ratio of the two Earth
radius constants: every returned index identifies an in-range, unmasked
grid point whose haversine distance to the centre is at most
R·(6371.007176/6371); every in-range unmasked point that is not returned
has haversine distance strictly greater than R. -/
theorem radius_query_soundness (longitude latitude : List ℝ) (mask : List Bool)
    (centre_lon centre_lat radius : ℝ) (hR : 0 < radius) :
    (∀ i ∈ subset_indices_by_distance longitude latitude mask
        centre_lon centre_lat radius,
      calculate_haversine_distance (longitude.getD i 0) (latitude.getD i 0)
          centre_lon centre_lat ≤ radius * (6371.007176 / 6371))
    ∧ (∀ i, i < longitude.length → mask.getD i false = false →
        i ∉ subset_indices_by_distance longitude latitude mask
          centre_lon centre_lat radius →
        radius < calculate_haversine_distance (longitude.getD i 0)
          (latitude.getD i 0) centre_lon centre_lat) := by
  constructor
  · rintro i ⟨-, -, hle⟩
    rw [haversine_eq_theta]
    have hmul := mul_le_mul_of_nonneg_left hle
      (by norm_num : (0 : ℝ) ≤ 6371.007176)
    calc 6371.007176 * ballTreeHaversine (deg2rad (latitude.getD i 0))
          (deg2rad (longitude.getD i 0)) (deg2rad centre_lat) (deg2rad centre_lon)
        ≤ 6371.007176 * (radius / 6371) := hmul
      _ = radius * (6371.007176 / 6371) := by ring
  · intro i hi hm hnot
    have hgt : radius / 6371
        < ballTreeHaversine (deg2rad (latitude.getD i 0))
            (deg2rad (longitude.getD i 0)) (deg2rad centre_lat)
            (deg2rad centre_lon) := by
      by_contra hc
      exact hnot ⟨hi, hm, le_of_not_lt hc⟩
    rw [haversine_eq_theta]
    have hnn := ballTreeHaversine_nonneg (deg2rad (latitude.getD i 0))
      (deg2rad (longitude.getD i 0)) (deg2rad centre_lat) (deg2rad centre_lon)
    nlinarith

/-- C1 witness: a one-point grid whose point coincides with the centre is
returned and satisfies both amended bounds at radius 1 km. -/
theorem radius_query_soundness_witness :
    (0 : ℝ) < 1
    ∧ ((∀ i ∈ subset_indices_by_distance [0] [0] [] 0 0 1,
          calculate_haversine_distance (([0] : List ℝ).getD i 0)
            (([0] : List ℝ).getD i 0) 0 0 ≤ 1 * (6371.007176 / 6371))
      ∧ (∀ i, i < ([0] : List ℝ).length → ([] : List Bool).getD i false = false →
          i ∉ subset_indices_by_distance [0] [0] [] 0 0 1 →
          (1 : ℝ) < calculate_haversine_distance (([0] : List ℝ).getD i 0)
            (([0] : List ℝ).getD i 0) 0 0)) :=
  ⟨by norm_num, radius_query_soundness [0] [0] [] 0 0 1 (by norm_num)⟩

/-- `np.unravel_index(k, (r, c))` for a 2-D row-major shape:
`(k / c, k % c)` — first coordinate indexes the first (row) dimension. -/
def unravel_index2 (k : ℕ) (shape : ℕ × ℕ) : ℕ × ℕ :=
  (k / shape.2, k % shape.2)

/-- Embeds the 2-D return stage shared by `subset_indices_by_distance`
(lines 63-73) and `nearest_indices_2D` (lines 214-218):
`y, x = np.unravel_index(ind_1d, original_shape)` followed by
`return ind_x, ind_y` — the x (second-coordinate) list comes first. -/
def unravel_return (ind_1d : List ℕ) (shape : ℕ × ℕ) : List ℕ × List ℕ :=
  (ind_1d.map (fun k => (unravel_index2 k shape).2),
   ind_1d.map (fun k => (unravel_index2 k shape).1))

/-- C7 counterexample: on a 2×2 grid with flat index 2, the first returned
sequence is not the row indices (`[2 / 2] = [1]`) and the second is not
the column indices (`[2 % 2] = [0]`): the code returns the pair in the
opposite (column, row) order. -/
theorem index_order_cex :
    ¬ ((unravel_return [2] (2, 2)).1 = [2 / 2]
       ∧ (unravel_return [2] (2, 2)).2 = [2 % 2]) := by
  decide

/-- C7 amended.  The pair returned by the 2-D stage of
`subset_indices_by_distance` / `nearest_indices_2D` is ordered
(column-indices, row-indices): the first sequence indexes the second
(column) dimension, the second sequence indexes the first (row) dimension,
and together they reconstruct each flat position via the original grid
shape (`row * ncols + col = flat`). -/
theorem index_order_amended (ind_1d : List ℕ) (r c : ℕ) (hc : 0 < c)
    (hin : ∀ k ∈ ind_1d, k < r * c) :
    ∀ j, j < ind_1d.length →
      ∃ row col,
        (unravel_return ind_1d (r, c)).2[j]? = some row
        ∧ (unravel_return ind_1d (r, c)).1[j]? = some col
        ∧ row < r ∧ col < c
        ∧ row * c + col = ind_1d.getD j 0 := by
  intro j hj
  have hget : ind_1d[j]? = some (ind_1d.getD j 0) := by
    rw [List.getElem?_eq_getElem hj]
    simp [List.getD, List.getElem?_eq_getElem hj]
  set k := ind_1d.getD j 0 with hk
  have hkeq : ind_1d.getD j 0 = ind_1d[j] := by
    simp [List.getD, List.getElem?_eq_getElem hj]
  have hkmem : k ∈ ind_1d := by
    rw [hk, hkeq]
    exact List.getElem_mem hj
  refine ⟨k / c, k % c, ?_, ?_, ?_, ?_, ?_⟩
  · simp [unravel_return, unravel_index2, List.getElem?_map, hget]
  · simp [unravel_return, unravel_index2, List.getElem?_map, hget]
  · exact Nat.div_lt_of_lt_mul (by rw [mul_comm c r]; exact hin k hkmem)
  · exact Nat.mod_lt _ hc
  · rw [mul_comm, Nat.div_add_mod]

/-! ## Mutation of caller arrays (`general_utils.py` lines 39-46, 185-200).

A numpy array passed by the caller is a shared mutable buffer; these two
definitions give the caller-visible contents of the longitude argument
after the call returns, `none` modelling NaN. -/

/-- After `subset_indices_by_distance`: with a mask the code executes
`longitude[mask] = np.nan` directly on the caller's ndarray — no copy is
taken first (lines 39-46) — so the caller's masked positions become NaN.
Without a mask the array is untouched (`flatten` allocates a new array). -/
def subset_lon_after_call (longitude : List (Option ℝ))
    (mask : Option (List Bool)) : List (Option ℝ) :=
  match mask with
  | none => longitude
  | some m => List.zipWith (fun x b => if b then none else x) longitude m

/-- After `nearest_indices_2D`: `mod_lon = np.array(mod_lon)` (line 188)
allocates a fresh copy before any write, so the in-place NaN write hits
the copy and the caller's array is unchanged regardless of the mask. -/
def nearest_mod_lon_after_call (mod_lon : List (Option ℝ))
    (_mask : Option (List Bool)) : List (Option ℝ) :=
  mod_lon

/-- C8: the failing input.  `subset_indices_by_distance` called with the
caller's array `[1.0]` and mask `[True]` leaves the caller's array changed
to `[NaN]` — not its original value — while `nearest_indices_2D` on the
same input leaves the caller's array intact. -/
theorem subset_mutates_caller_array :
    subset_lon_after_call [some 1] (some [true]) = [none]
    ∧ subset_lon_after_call [some 1] (some [true]) ≠ [some 1]
    ∧ nearest_mod_lon_after_call [some 1] (some [true]) = [some 1] := by
  refine ⟨rfl, ?_, rfl⟩
  simp [subset_lon_after_call]

/-- C7 witness: flat index 2 on a 2×2 grid decomposes as row 1, column 0. -/
theorem index_order_amended_witness :
    0 < 2 ∧ (∀ k ∈ ([2] : List ℕ), k < 2 * 2)
    ∧ ∀ j, j < ([2] : List ℕ).length →
        ∃ row col,
          (unravel_return [2] (2, 2)).2[j]? = some row
          ∧ (unravel_return [2] (2, 2)).1[j]? = some col
          ∧ row < 2 ∧ col < 2
          ∧ row * 2 + col = ([2] : List ℕ).getD j 0 :=
  ⟨by decide, by decide, index_order_amended [2] 2 2 (by decide) (by decide)⟩

/-! ## TidalBandFilter: `doodson_x0_filter` (`stats_util.py` lines 106-152).

An n-dimensional input with filtered axis `ax` is modelled after the
`swapaxes`/`apply_along_axis` plumbing has been normalised away: the array
is the list of its slices along the filtered axis (each slice a
`List (Option ℝ)` of length `axLen = elevation.shape[ax]`, `none` = NaN).
`np.convolve(m, kern, mode=1)` is the centred "same" slice of the full
discrete convolution; an NaN sample poisons every window containing it,
which the `Option` arithmetic mirrors. -/

/-- NaN-propagating addition. -/
def addO (a b : Option ℝ) : Option ℝ :=
  match a, b with
  | some x, some y => some (x + y)
  | _, _ => none

/-- NaN-propagating sum of a list of samples. -/
def sumO (l : List (Option ℝ)) : Option ℝ :=
  l.foldr addO (some 0)

/-- One coefficient of the full discrete convolution `m * kern` at
position `k`: the sum of `m[j] · kern[k - j]` over the window of valid
index pairs. -/
noncomputable def convAt (m : List (Option ℝ)) (kern : List ℝ) (k : ℕ) :
    Option ℝ :=
  sumO ((List.range m.length).filterMap (fun j =>
    if j ≤ k ∧ k - j < kern.length then
      some ((m.getD j none).map (· * kern.getD (k - j) 0))
    else none))

/-- `np.convolve(m, kern, mode=1)` ("same"): the centred
`max (len m) (len kern)` coefficients of the full convolution, offset by
`(len kern - 1) / 2`. -/
noncomputable def convolveSame (m : List (Option ℝ)) (kern : List ℝ) :
    List (Option ℝ) :=
  (List.range (max m.length kern.length)).map
    (fun k => convAt m kern (k + (kern.length - 1) / 2))

/-- The 39 Doodson X0 weights divided by 30 (lines 137-140). -/
noncomputable def doodsonKern : List ℝ :=
  ([1, 0, 1, 0, 0, 1, 0, 1, 1, 0, 2, 0, 1, 1, 0, 2, 1, 1, 2,
    0,
    2, 1, 1, 2, 0, 1, 1, 0, 2, 0, 1, 1, 0, 1, 0, 0, 1, 0, 1] : List ℝ).map
    (· / 30)

/-- `filtered[:19] = nan; filtered[-19:] = nan` applied to one slice along
the filtered axis. -/
def padBoundary (row : List (Option ℝ)) : List (Option ℝ) :=
  (List.range row.length).map
    (fun i => if i < 19 ∨ row.length - 19 ≤ i then none else row.getD i none)

/-- Embeds `doodson_x0_filter`: an axis shorter than 39 samples triggers
the cautionary early return with no result (`none`); otherwise every slice
along the filtered axis is convolved with the Doodson X0 kernel and its
first and last 19 samples are overwritten with NaN. -/
noncomputable def doodson_x0_filter (elevation : List (List (Option ℝ)))
    (axLen : ℕ) : Option (List (List (Option ℝ))) :=
  if axLen < 39 then none
  else some (elevation.map (fun row => padBoundary (convolveSame row doodsonKern)))

lemma doodsonKern_length : doodsonKern.length = 39 := by
  simp [doodsonKern]

lemma convolveSame_length (m : List (Option ℝ)) (kern : List ℝ) :
    (convolveSame m kern).length = max m.length kern.length := by
  simp [convolveSame]

lemma padBoundary_length (row : List (Option ℝ)) :
    (padBoundary row).length = row.length := by
  simp [padBoundary]

lemma padBoundary_get (row : List (Option ℝ)) (i : ℕ) (hi : i < row.length)
    (h : i < 19 ∨ row.length - 19 ≤ i) :
    (padBoundary row)[i]? = some none := by
  unfold padBoundary
  rw [List.getElem?_map, List.getElem?_range hi]
  simp only [Option.map_some']
  rw [if_pos h]

lemma doodson_row_length (row : List (Option ℝ)) (axLen : ℕ)
    (hrow : row.length = axLen) (hlen : 39 ≤ axLen) :
    (padBoundary (convolveSame row doodsonKern)).length = axLen := by
  rw [padBoundary_length, convolveSame_length, doodsonKern_length, hrow]
  omega

/-- C3.  Tidal filter boundary and underlong-axis behaviour: with fewer
than 39 samples along the filtered axis the call reports the distinguishable
no-result condition (`none`) and produces no numeric output; with at least
39 samples it returns an array whose first 19 and last 19 entries along
that axis are NaN in every orthogonal slice. -/
theorem doodson_boundary_underlong (elevation : List (List (Option ℝ)))
    (axLen : ℕ) (hrect : ∀ row ∈ elevation, row.length = axLen) :
    (axLen < 39 → doodson_x0_filter elevation axLen = none)
    ∧ (39 ≤ axLen →
        ∃ out, doodson_x0_filter elevation axLen = some out
          ∧ ∀ row ∈ out, ∀ i,
              (i < 19 ∨ (axLen - 19 ≤ i ∧ i < axLen)) → row[i]? = some none) := by
  constructor
  · intro h
    simp [doodson_x0_filter, h]
  · intro h
    refine ⟨elevation.map (fun row => padBoundary (convolveSame row doodsonKern)),
      ?_, ?_⟩
    · simp [doodson_x0_filter, Nat.not_lt.mpr h]
    · intro row hrow i hi
      obtain ⟨src, hsrc, rfl⟩ := List.mem_map.mp hrow
      have hlen : (convolveSame src doodsonKern).length = axLen := by
        rw [convolveSame_length, doodsonKern_length, hrect src hsrc]
        omega
      apply padBoundary_get
      · omega
      · rw [hlen]
        omega

/-- C3 witness: one all-NaN slice of exactly 39 hourly samples. -/
theorem doodson_boundary_underlong_witness :
    (∀ row ∈ [List.replicate 39 (none : Option ℝ)], row.length = 39)
    ∧ ((39 < 39 → doodson_x0_filter [List.replicate 39 (none : Option ℝ)] 39 = none)
      ∧ (39 ≤ 39 →
          ∃ out, doodson_x0_filter [List.replicate 39 (none : Option ℝ)] 39 = some out
            ∧ ∀ row ∈ out, ∀ i,
                (i < 19 ∨ (39 - 19 ≤ i ∧ i < 39)) → row[i]? = some none)) :=
  ⟨by simp, doodson_boundary_underlong [List.replicate 39 (none : Option ℝ)] 39
    (by simp)⟩

/-- C10.  Shape preservation: when the filtered axis has at least 39
samples, the filtered array has exactly the shape of the input — the same
number of orthogonal slices, each of the same length along the filtered
axis. -/
theorem doodson_shape_preserved (elevation : List (List (Option ℝ)))
    (axLen : ℕ) (hrect : ∀ row ∈ elevation, row.length = axLen)
    (hlen : 39 ≤ axLen) :
    ∃ out, doodson_x0_filter elevation axLen = some out
      ∧ out.length = elevation.length
      ∧ ∀ row ∈ out, row.length = axLen := by
  refine ⟨elevation.map (fun row => padBoundary (convolveSame row doodsonKern)),
    ?_, by simp, ?_⟩
  · simp [doodson_x0_filter, Nat.not_lt.mpr hlen]
  · intro row hrow
    obtain ⟨src, hsrc, rfl⟩ := List.mem_map.mp hrow
    exact doodson_row_length src axLen (hrect src hsrc) hlen

/-- C10 witness: a 2×40 input keeps its 2×40 shape. -/
theorem doodson_shape_preserved_witness :
    (∀ row ∈ [List.replicate 40 (none : Option ℝ),
              List.replicate 40 (some (1 : ℝ))], row.length = 40)
    ∧ 39 ≤ 40
    ∧ ∃ out,
        doodson_x0_filter [List.replicate 40 (none : Option ℝ),
          List.replicate 40 (some (1 : ℝ))] 40 = some out
        ∧ out.length = [List.replicate 40 (none : Option ℝ),
            List.replicate 40 (some (1 : ℝ))].length
        ∧ ∀ row ∈ out, row.length = 40 :=
  ⟨by simp, by omega,
    doodson_shape_preserved
      [List.replicate 40 (none : Option ℝ), List.replicate 40 (some (1 : ℝ))]
      40 (by simp) (by omega)⟩

/-! ## DistributionEstimator (`stats_util.py` lines 155-212). -/

/-- The Gaussian density of `normal_distribution` (lines 155-173) at one
support point: `term1 = 1/(sigma*sqrt(2*pi))`,
`exponent = -0.5*((x-mu)/sigma)**2`, result `term1*exp(exponent)`. -/
noncomputable def normalPdfAt (mu sigma xv : ℝ) : ℝ :=
  let term1 := 1 / (sigma * Real.sqrt (2 * Real.pi))
  let exponent := -0.5 * ((xv - mu) / sigma) ^ 2
  term1 * Real.exp exponent

/-- Embeds `normal_distribution` on an explicit support array. -/
noncomputable def normal_distribution (mu sigma : ℝ) (x : List ℝ) : List ℝ :=
  x.map (normalPdfAt mu sigma)

/-- `np.trapz(y, x)`: composite trapezoidal quadrature over paired sample
lists; zero when fewer than two samples are given. -/
noncomputable def trapz : List ℝ → List ℝ → ℝ
  | y1 :: y2 :: ys, x1 :: x2 :: xs =>
      (y1 + y2) / 2 * (x2 - x1) + trapz (y2 :: ys) (x2 :: xs)
  | _, _ => 0

/-- Embeds `cumulative_distribution` with `cdf_func='gaussian'`
(lines 175-193): `cdf = [np.trapz(pdf[:ii], x[:ii]) for ii in range(0, len(x))]`
— each entry integrates the slices that stop *before* index `ii`. -/
noncomputable def cumulative_distribution (mu sigma : ℝ) (x : List ℝ) :
    List ℝ :=
  let pdf := normal_distribution mu sigma x
  (List.range x.length).map (fun ii => trapz (pdf.take ii) (x.take ii))

lemma trapz_eq_sum : ∀ (ys xs : List ℝ), ys.length = xs.length →
    trapz ys xs = ∑ k ∈ Finset.range (xs.length - 1),
      (ys.getD k 0 + ys.getD (k + 1) 0) / 2
        * (xs.getD (k + 1) 0 - xs.getD k 0)
  | [], [], _ => by simp [trapz]
  | [_], [_], _ => by simp [trapz]
  | y1 :: y2 :: ys, x1 :: x2 :: xs, h => by
    have h' : (y2 :: ys).length = (x2 :: xs).length := by simpa using h
    have IH := trapz_eq_sum (y2 :: ys) (x2 :: xs) h'
    show (y1 + y2) / 2 * (x2 - x1) + trapz (y2 :: ys) (x2 :: xs) = _
    rw [IH]
    have hlen : (x1 :: x2 :: xs).length - 1 = ((x2 :: xs).length - 1) + 1 := by
      simp
    rw [hlen, Finset.sum_range_succ']
    have hcongr : ∀ k ∈ Finset.range ((x2 :: xs).length - 1),
        ((y1 :: y2 :: ys).getD (k + 1) 0 + (y1 :: y2 :: ys).getD (k + 1 + 1) 0) / 2
          * ((x1 :: x2 :: xs).getD (k + 1 + 1) 0 - (x1 :: x2 :: xs).getD (k + 1) 0)
        = ((y2 :: ys).getD k 0 + (y2 :: ys).getD (k + 1) 0) / 2
          * ((x2 :: xs).getD (k + 1) 0 - (x2 :: xs).getD k 0) := by
      intro k _
      simp [List.getD_cons_succ]
    rw [Finset.sum_congr rfl hcongr]
    simp [List.getD]
    ring
  | [], _ :: _, h => by simp at h
  | _ :: _, [], h => by simp at h
  | [_], _ :: _ :: _, h => by simp at h
  | _ :: _ :: _, [_], h => by simp at h

/-- C4 counterexample: with `mu = 0`, `sigma = 1`, support `x = [0, 1]`,
the entry at index 1 of the returned array is `trapz(pdf[:1], x[:1]) = 0`,
not the trapezoidal integral over the support points up to and including
index 1, which is `(pdf(0)+pdf(1))/2 > 0` — the slices `pdf[:ii]`, `x[:ii]`
exclude index `ii`. -/
theorem gaussian_cdf_cex :
    (cumulative_distribution 0 1 [0, 1])[1]?
      ≠ some (trapz ((normal_distribution 0 1 [0, 1]).take (1 + 1))
          (([0, 1] : List ℝ).take (1 + 1))) := by
  have hx : ([0, 1] : List ℝ).length = 2 := rfl
  have hL : (cumulative_distribution 0 1 [0, 1])[1]? = some (trapz
      ((normal_distribution 0 1 [0, 1]).take 1) (([0, 1] : List ℝ).take 1)) := by
    unfold cumulative_distribution
    rw [List.getElem?_map, List.getElem?_range (by rw [hx]; omega)]
    rfl
  rw [hL]
  have h1 : trapz ((normal_distribution 0 1 [0, 1]).take 1)
      (([0, 1] : List ℝ).take 1) = 0 := by
    show trapz [normalPdfAt 0 1 0] [0] = 0
    rfl
  have h2 : trapz ((normal_distribution 0 1 [0, 1]).take (1 + 1))
      (([0, 1] : List ℝ).take (1 + 1))
      = (normalPdfAt 0 1 0 + normalPdfAt 0 1 1) / 2 * (1 - 0)
        + trapz [normalPdfAt 0 1 1] [1] := by
    rfl
  have h3 : trapz [normalPdfAt 0 1 1] [1] = 0 := rfl
  have hpos : 0 < (normalPdfAt 0 1 0 + normalPdfAt 0 1 1) / 2 * (1 - 0) := by
    simp only [normalPdfAt]
    positivity
  rw [h1, h2, h3]
  intro hcontra
  rw [Option.some_inj] at hcontra
  linarith

/-- C4 amended.  Gaussian CDF quadrature with the exclusive upper index:
entry `i` of the returned array is the trapezoidal-quadrature integral of
the Gaussian PDF over the support points strictly before index `i`
(slices `pdf[:i]`, `x[:i]`); in particular entries 0 and 1 are 0. -/
theorem gaussian_cdf_trapz (mu sigma : ℝ) (x : List ℝ) (i : ℕ)
    (hi : i < x.length) :
    (cumulative_distribution mu sigma x)[i]?
      = some (∑ k ∈ Finset.range (i - 1),
          (normalPdfAt mu sigma (x.getD k 0)
              + normalPdfAt mu sigma (x.getD (k + 1) 0)) / 2
            * (x.getD (k + 1) 0 - x.getD k 0)) := by
  unfold cumulative_distribution normal_distribution
  rw [List.getElem?_map, List.getElem?_range hi]
  simp only [Option.map_some', Option.some_inj]
  have hmt : (x.map (normalPdfAt mu sigma)).take i
      = (x.take i).map (normalPdfAt mu sigma) := (List.map_take _ _ _).symm
  have hlen : ((x.take i).map (normalPdfAt mu sigma)).length
      = (x.take i).length := List.length_map _ _
  rw [hmt, trapz_eq_sum _ _ hlen]
  have htlen : (x.take i).length = i := List.length_take_of_le (le_of_lt hi)
  rw [htlen]
  refine Finset.sum_congr rfl ?_
  intro k hk
  have hk' : k < i - 1 := Finset.mem_range.mp hk
  have hki : k < i := by omega
  have hk1i : k + 1 < i := by omega
  have hgd : ∀ j, j < i → (x.take i).getD j 0 = x.getD j 0 := by
    intro j hj
    simp [List.getD, List.getElem?_take, hj]
  have hgm : ∀ j, j < i →
      ((x.take i).map (normalPdfAt mu sigma)).getD j 0
        = normalPdfAt mu sigma (x.getD j 0) := by
    intro j hj
    have hjt : j < (x.take i).length := by omega
    simp [List.getD, List.getElem?_map, List.getElem?_take, hj,
      List.getElem?_eq_getElem hjt]
    rw [List.getElem?_eq_getElem (show j < x.length by omega)]
    rfl
  rw [hgd k hki, hgd (k + 1) hk1i, hgm k hki, hgm (k + 1) hk1i]

/-- C4 witness: entry 0 of the two-point support is the empty integral. -/
theorem gaussian_cdf_trapz_witness :
    0 < ([0, 1] : List ℝ).length
    ∧ (cumulative_distribution 0 1 [0, 1])[0]?
        = some (∑ k ∈ Finset.range (0 - 1),
            (normalPdfAt 0 1 (([0, 1] : List ℝ).getD k 0)
                + normalPdfAt 0 1 (([0, 1] : List ℝ).getD (k + 1) 0)) / 2
              * (([0, 1] : List ℝ).getD (k + 1) 0
                  - ([0, 1] : List ℝ).getD k 0)) :=
  ⟨by decide, gaussian_cdf_trapz 0 1 [0, 1] 0 (by decide)⟩

/-- Embeds `empirical_distribution` (lines 195-212): drop the NaN entries
of the sample (`sample[~np.isnan(sample)]`, `none` = NaN), sort what is
left (`np.sort`), start from an all-zero output and, for each remaining
sample value `ss`, add `1/n_sample` to every output position whose support
value exceeds `ss` (`edf[x>ss] = edf[x>ss] + 1/n_sample`). -/
noncomputable def empirical_distribution (x : List ℝ)
    (sample : List (Option ℝ)) : List ℝ :=
  let s := (sample.filterMap id).mergeSort (fun a b => decide (a ≤ b))
  let n := s.length
  s.foldl
    (fun edf ss =>
      List.zipWith (fun xi e => if ss < xi then e + 1 / (n : ℝ) else e) x edf)
    (x.map (fun _ => (0 : ℝ)))

lemma edf_fold_get (x : List ℝ) (c : ℝ) :
    ∀ (s : List ℝ) (init : List ℝ), init.length = x.length →
    ∀ i, i < x.length →
    (s.foldl
        (fun edf ss =>
          List.zipWith (fun xi e => if ss < xi then e + c else e) x edf)
        init)[i]?
      = some (init.getD i 0
          + (s.countP (fun ss => decide (ss < x.getD i 0)) : ℝ) * c)
  | [], init, hlen, i, hi => by
    have hii : i < init.length := by omega
    rw [List.foldl_nil, List.getElem?_eq_getElem hii]
    simp [List.getD, List.getElem?_eq_getElem hii]
  | ss :: s, init, hlen, i, hi => by
    rw [List.foldl_cons]
    have hlen' : (List.zipWith (fun xi e => if ss < xi then e + c else e)
        x init).length = x.length := by
      rw [List.length_zipWith]
      omega
    rw [edf_fold_get x c s _ hlen' i hi]
    have hii : i < init.length := by omega
    have hz : (List.zipWith (fun xi e => if ss < xi then e + c else e)
        x init).getD i 0
        = if ss < x.getD i 0 then init.getD i 0 + c else init.getD i 0 := by
      simp [List.getD, List.getElem?_zipWith, List.getElem?_eq_getElem hi,
        List.getElem?_eq_getElem hii]
    rw [hz, List.countP_cons]
    by_cases hcmp : ss < x.getD i 0
    · rw [if_pos hcmp,
        if_pos (show decide (ss < x.getD i 0) = true from by simpa using hcmp)]
      push_cast
      ring_nf
    · rw [if_neg hcmp,
        if_neg (show ¬ decide (ss < x.getD i 0) = true from by simpa using hcmp)]
      push_cast
      ring_nf

/-- C5.  Empirical CDF: entry `i` of the result is the fraction of the
non-NaN sample values that are strictly less than `x[i]` (the count of
such values divided by the number of non-NaN values). -/
theorem empirical_cdf_fraction (x : List ℝ) (sample : List (Option ℝ))
    (i : ℕ) (hi : i < x.length) :
    (empirical_distribution x sample)[i]?
      = some (((sample.filterMap id).countP
            (fun ss => decide (ss < x.getD i 0)) : ℝ)
          / ((sample.filterMap id).length : ℝ)) := by
  unfold empirical_distribution
  have hinit : (x.map (fun _ => (0 : ℝ))).length = x.length :=
    List.length_map _ _
  rw [edf_fold_get x _ _ _ hinit i hi]
  have hperm := List.mergeSort_perm (sample.filterMap id)
    (fun a b => decide (a ≤ b))
  have hcnt := hperm.countP_eq (fun ss => decide (ss < x.getD i 0))
  have hslen := hperm.length_eq
  have hinit0 : (x.map (fun _ => (0 : ℝ))).getD i 0 = 0 := by
    simp [List.getD, List.getElem?_map, List.getElem?_eq_getElem hi]
  rw [hinit0, hcnt, hslen, zero_add, mul_one_div]

/-- C5 witness: support `[1]` against sample `[0, NaN]` gives 1/1. -/
theorem empirical_cdf_fraction_witness :
    0 < ([1] : List ℝ).length
    ∧ (empirical_distribution [1] [some 0, none])[0]?
        = some ((([some (0 : ℝ), none].filterMap id).countP
              (fun ss => decide (ss < ([1] : List ℝ).getD 0 0)) : ℝ)
            / (([some (0 : ℝ), none].filterMap id).length : ℝ)) :=
  ⟨by decide, empirical_cdf_fraction [1] [some 0, none] 0 (by decide)⟩

end COAsT
